import Mathlib

/-
Verification of the covid-tracker-data build pipeline (build.ts).

The repository contains three historical versions of the same build script,
concatenated in src/build.ts.  The first version (processData with an optional
testingData argument) is the richest and is the authority for the Delta
Calculator and Series Reconciler claims; the second version (raw record arrays
with explicit header validation) is the authority for the header-mismatch
claims; the third version repeats the first without testing data.

JavaScript values appearing in row fields are modelled by the inductive JsVal:
undefined, null, NaN, integers, and strings.  Feed counts are integer-valued,
so JS doubles are modelled by Int (exact for these magnitudes) with NaN as an
explicit constructor.  JS Date objects are modelled at day granularity by
JsDate: an invalid date (whose getTime is NaN) or a day number.  Plain JS
objects used as string-keyed maps are modelled by association lists looked up
front-to-back; the prototype chain is outside the model.
-/

inductive JsVal where
  | undef
  | null
  | nan
  | num (n : Int)
  | str (s : String)
deriving DecidableEq, Repr

/-- Digits of a decimal char list folded to a Nat (caller checks all are digits). -/
def digitsOf (l : List Char) : Nat :=
  l.foldl (fun a c => a * 10 + (c.toNat - 48)) 0

/-- Digits of a decimal string folded to a Nat (caller checks all chars are digits). -/
def digitsVal (s : String) : Nat :=
  digitsOf s.toList

/-- JS whitespace for the purposes of Number coercion. -/
def isJsSpace (c : Char) : Bool :=
  c = ' ' || c = '\t' || c = '\n' || c = '\r'

/-- Leading and trailing whitespace stripped from a char list. -/
def trimChars (l : List Char) : List Char :=
  ((l.dropWhile isJsSpace).reverse.dropWhile isJsSpace).reverse

/-- JS Number(string) restricted to optionally signed integer literals: the
empty or all-whitespace string coerces to 0, a signed run of decimal digits to
its value, and anything else to NaN (returned as none). -/
def parseJsNumber (s : String) : Option Int :=
  match trimChars s.toList with
  | [] => some 0
  | '-' :: ds => if ds ≠ [] ∧ ds.all Char.isDigit = true then some (-(digitsOf ds : Int)) else none
  | '+' :: ds => if ds ≠ [] ∧ ds.all Char.isDigit = true then some (digitsOf ds) else none
  | ds => if ds.all Char.isDigit = true then some (digitsOf ds) else none

/-- JS Number(value) coercion: undefined gives NaN, null gives 0, strings are
parsed, numbers pass through. -/
def toNumber : JsVal → JsVal
  | .undef => .nan
  | .null => .num 0
  | .nan => .nan
  | .num n => .num n
  | .str s =>
    match parseJsNumber s with
    | some n => .num n
    | none => .nan

/-- JS subtraction on Number-coerced values: numeric on two numbers, NaN
whenever either operand is NaN (toNumber never returns undef, null or str). -/
def jsSub : JsVal → JsVal → JsVal
  | .num a, .num b => .num (a - b)
  | _, _ => .nan

/-- build.ts coerceNumber: value loosely equal to undefined (so undefined or
null) gives null, otherwise Number(value). -/
def coerceNumber : JsVal → JsVal
  | .undef => .null
  | .null => .null
  | v => toNumber v

/-- JS String(value) conversion for the values in the model. -/
def jsToString : JsVal → String
  | .undef => "undefined"
  | .null => "null"
  | .nan => "NaN"
  | .num n => toString n
  | .str s => s

/-- JS String.prototype.substring with start at a and end at b (a at most b in
every use in the source); clamps at the string length. -/
def jsSubstring (s : String) (a b : Nat) : String :=
  String.mk ((s.toList.drop a).take (b - a))

/-- A row of the NYT case feeds after csv parse with columns: true, plus the
fields the build adds.  Absent object properties are undef for the parsed
fields and none for the fields the build may attach. -/
structure Row where
  date : JsVal := .undef
  state : JsVal := .undef
  county : JsVal := .undef
  fips : JsVal := .undef
  cases : JsVal := .undef
  deaths : JsVal := .undef
  positive : Option JsVal := none
  negative : Option JsVal := none
  pending : Option JsVal := none
  tests : Option JsVal := none
  newPositive : Option JsVal := none
  newNegative : Option JsVal := none
  newTests : Option JsVal := none
  newCases : Option JsVal := none
  newDeaths : Option JsVal := none
deriving DecidableEq, Repr

/-- A covidtracking.com testing record; a field the JSON object lacks is undef. -/
structure TRow where
  date : JsVal := .undef
  fips : JsVal := .undef
  positive : JsVal := .undef
  negative : JsVal := .undef
  pending : JsVal := .undef
  total : JsVal := .undef
  positiveIncrease : JsVal := .undef
  negativeIncrease : JsVal := .undef
  totalTestResultsIncrease : JsVal := .undef
deriving DecidableEq, Repr

/-- The original parsed fields of a row, used to state frame properties. -/
def origFields (r : Row) : JsVal × JsVal × JsVal × JsVal × JsVal × JsVal :=
  (r.date, r.state, r.county, r.fips, r.cases, r.deaths)

/-- The testing-related fields of a row. -/
def testingFields (r : Row) :
    Option JsVal × Option JsVal × Option JsVal × Option JsVal ×
    Option JsVal × Option JsVal × Option JsVal :=
  (r.positive, r.negative, r.pending, r.tests, r.newPositive, r.newNegative, r.newTests)

/-- processData date normalization for testing records: a compact date such as
20200315 becomes the string 2020-03-15 via String() and substring. -/
def normalizeCtDate (d : JsVal) : String :=
  let ds := jsToString d
  jsSubstring ds 0 4 ++ "-" ++ jsSubstring ds 4 6 ++ "-" ++ jsSubstring ds 6 8

/-- The lookup groupedByFips (fips) (date) built by processData from the
testing data: rows are grouped by String(fips) and keyed by normalized date
with lodash keyBy last-write-wins, so the match is the last testing row with
both keys equal. -/
def lookupTesting (td : List TRow) (fips date : String) : Option TRow :=
  ((td.filter (fun t => jsToString t.fips == fips)).filter
    (fun t => normalizeCtDate t.date == date)).getLast?

/-- The testing-attach loop of processData: when a testing record matches the
row by (String fips, String date), the seven testing fields are assigned from
it through coerceNumber; otherwise the row is untouched. -/
def attachTesting (td : List TRow) (r : Row) : Row :=
  match lookupTesting td (jsToString r.fips) (jsToString r.date) with
  | none => r
  | some t =>
    { r with
      positive := some (coerceNumber t.positive)
      negative := some (coerceNumber t.negative)
      pending := some (coerceNumber t.pending)
      tests := some (coerceNumber t.total)
      newPositive := some (coerceNumber t.positiveIncrease)
      newNegative := some (coerceNumber t.negativeIncrease)
      newTests := some (coerceNumber t.totalTestResultsIncrease) }

/-- First phase of processData: with testing data every row goes through the
attach loop, without it the data is untouched. -/
def attachPhase (td : Option (List TRow)) (data : List Row) : List Row :=
  match td with
  | none => data
  | some t => data.map (attachTesting t)

/-- One step of the delta loop: the first row of a group gets newCases and
newDeaths equal to its own coerced cumulatives, a later row gets the
difference against the previous row of its group. -/
def deriveRow (r : Row) : Option Row → Row
  | none =>
    { r with
      newCases := some (toNumber r.cases)
      newDeaths := some (toNumber r.deaths) }
  | some p =>
    { r with
      newCases := some (jsSub (toNumber r.cases) (toNumber p.cases))
      newDeaths := some (jsSub (toNumber r.deaths) (toNumber p.deaths)) }

/-- The delta pass of processData, rendered purely: the source groups the rows
with lodash groupBy and mutates them in place, which leaves every row at its
original position with its delta taken against the nearest earlier row having
the same group key.  pre is the list of rows already passed. -/
def deltaAux (key : Row → String) (pre : List Row) : List Row → List Row
  | [] => []
  | r :: rest =>
    deriveRow r ((pre.filter (fun p => key p == key r)).getLast? ) ::
      deltaAux key (pre ++ [r]) rest

def deltaPass (key : Row → String) (data : List Row) : List Row :=
  deltaAux key [] data

/-- build.ts processData (first version): optional testing-data attach, then
the grouped newCases and newDeaths computation.  The third version of the
script is the td = none case. -/
def processData (data : List Row) (key : Row → String) (td : Option (List TRow)) : List Row :=
  deltaPass key (attachPhase td data)

/-- The body of the per-group loop of processData with the running lastCases
and lastDeaths state. -/
def processGroupGo (lastCases lastDeaths : JsVal) : List Row → List Row
  | [] => []
  | r :: rest =>
    { r with
      newCases := some (jsSub (toNumber r.cases) lastCases)
      newDeaths := some (jsSub (toNumber r.deaths) lastDeaths) } ::
      processGroupGo (toNumber r.cases) (toNumber r.deaths) rest

/-- The per-group loop of processData, as written in the source: the first row
is initialized from its own values, the rest subtract the previous row. -/
def processGroup : List Row → List Row
  | [] => []
  | r0 :: rest =>
    { r0 with
      newCases := some (toNumber r0.cases)
      newDeaths := some (toNumber r0.deaths) } ::
      processGroupGo (toNumber r0.cases) (toNumber r0.deaths) rest

/-- The per-group loop started from an optional already-seen previous row. -/
def processGroupFrom : Option Row → List Row → List Row
  | none, l => processGroup l
  | some p, l => processGroupGo (toNumber p.cases) (toNumber p.deaths) l

/-- Parse of a YYYY-MM-DD date string: four, two and two decimal digits with a
month from 1 to 12, a day from 1 to 31 and a year at least 1600 (the feeds are
from 2020).  Anything else models an invalid JS Date. -/
def parseYMD (s : String) : Option (Nat × Nat × Nat) :=
  match s.toList with
  | [y1, y2, y3, y4, c1, m1, m2, c2, d1, d2] =>
    if c1 = '-' ∧ c2 = '-' ∧
       (List.all [y1, y2, y3, y4, m1, m2, d1, d2] Char.isDigit) = true ∧
       1 ≤ digitsOf [m1, m2] ∧ digitsOf [m1, m2] ≤ 12 ∧
       1 ≤ digitsOf [d1, d2] ∧ digitsOf [d1, d2] ≤ 31 ∧
       1600 ≤ digitsOf [y1, y2, y3, y4]
    then some (digitsOf [y1, y2, y3, y4], digitsOf [m1, m2], digitsOf [d1, d2])
    else none
  | _ => none

/-- Civil day number of a Gregorian date (days from an epoch before year
1600), the standard days-from-civil computation; monotone in the date. -/
def daysFromCivil (y m d : Nat) : Int :=
  let y2 := if m ≤ 2 then y - 1 else y
  let era := y2 / 400
  let yoe := y2 - era * 400
  let mp := (m + 9) % 12
  let doy := (153 * mp + 2) / 5 + d - 1
  let doe := yoe * 365 + yoe / 4 - yoe / 100 + doy
  ((era * 146097 + doe : Nat) : Int)

/-- A JS Date at day granularity: invalid (getTime is NaN) or a day number. -/
inductive JsDate where
  | invalid
  | time (t : Int)
deriving DecidableEq, Repr

/-- build.ts createDate: new Date of the date string with a midnight time
suffix, modelled at day granularity. -/
def createDate (s : String) : JsDate :=
  match parseYMD s with
  | some (y, m, d) => .time (daysFromCivil y m d)
  | none => .invalid

/-- JS strict greater-than on getTime values; false whenever either is NaN. -/
def dateGt : JsDate → JsDate → Bool
  | .time a, .time b => decide (b < a)
  | _, _ => false

/-- JS greater-or-equal on getTime values; false whenever either is NaN. -/
def dateGe : JsDate → JsDate → Bool
  | .time a, .time b => decide (b ≤ a)
  | _, _ => false

/-- The latestDate fold of parseNytUs: starting from null, a row replaces the
current latest only when its date compares strictly greater (a NaN comparison
is false, and the first row is taken unconditionally). -/
def latestStep (acc : Option JsDate) (r : Row) : Option JsDate :=
  let d := createDate (jsToString r.date)
  match acc with
  | none => some d
  | some l => if dateGt d l then some d else some l

def latestDateOf (rows : List Row) : Option JsDate :=
  rows.foldl latestStep none

/-- moment(latestDate).subtract(97, days): 90 requested plus 7 lead-in days
for the downstream 7-day moving average. -/
def sub97 : Option JsDate → JsDate
  | some (.time t) => .time (t - 97)
  | _ => .invalid

/-- build.ts date90DaysAgo, computed from the national (us.csv) rows only. -/
def date90DaysAgo (usRows : List Row) : JsDate :=
  sub97 (latestDateOf usRows)

/-- buildStateFiles: a national row is re-packed keeping only date, cases and
deaths, with state US and the reserved fips 00. -/
def usStateRow (r : Row) : Row :=
  { date := r.date, state := .str "US", fips := .str "00", cases := r.cases, deaths := r.deaths }

/-- The combined national-plus-state case rows of buildStateFiles. -/
def nytStateData (usRows stateRows : List Row) : List Row :=
  usRows.map usStateRow ++ stateRows

/-- groupBy callback row.state of buildStateFiles, as the string object key
lodash derives from it. -/
def stateKey (r : Row) : String :=
  jsToString r.state

/-- The rows of the all-history state file: processData over the combined rows
with the testing data attached. -/
def stateAllRows (usRows stateRows : List Row) (ct : List TRow) : List Row :=
  processData (nytStateData usRows stateRows) stateKey (some ct)

/-- The rows of the trailing-window state file: the all-history rows whose
date is at least date90DaysAgo of the national rows. -/
def state90Rows (usRows stateRows : List Row) (ct : List TRow) : List Row :=
  (stateAllRows usRows stateRows ct).filter
    (fun r => dateGe (createDate (jsToString r.date)) (date90DaysAgo usRows))

/-- Association-list lookup modelling property access on a plain JS object
used as a string-keyed map (first matching entry wins). -/
def alookup {β : Type} : List (String × β) → String → Option β
  | [], _ => none
  | (a, b) :: rest, k => if a = k then some b else alookup rest k

/-- One assignment step of the stateNameToFips map of parseNytStates: the JS
guard is falsiness of the stored value, so a name is (re)assigned when it is
absent or currently stores the empty string. -/
def updateStateMap (m : List (String × String)) (name code : String) :
    List (String × String) :=
  match alookup m name with
  | none => m ++ [(name, code)]
  | some v =>
    if v = "" then m.map (fun p => if p.1 = name then (name, code) else p) else m

/-- The stateNameToFips map built by parseNytStates over the ordered state
rows; the stored code is String(record.fips). -/
def stateNameToFips (stateRows : List Row) : List (String × String) :=
  stateRows.foldl (fun m r => updateStateMap m (jsToString r.state) (jsToString r.fips)) []

/-- The grouping key of a county row in parseNytCounties: the looked-up state
fips, or the literal object key "undefined" that JS produces when the state
name is absent from the map. -/
def countyGroupKey (m : List (String × String)) (r : Row) : String :=
  match alookup m (jsToString r.state) with
  | some f => f
  | none => "undefined"

/-- Appending a row to its group in an association list of groups, keeping
first-encounter key order as a JS object does for non-index string keys. -/
def addToGroup (g : List (String × List Row)) (k : String) (r : Row) :
    List (String × List Row) :=
  match alookup g k with
  | some _ => g.map (fun p => if p.1 = k then (p.1, p.2 ++ [r]) else p)
  | none => g ++ [(k, [r])]

/-- parseNytCounties: county rows grouped by the fips their state name maps
to. -/
def groupedByStateFips (m : List (String × String)) (countyRows : List Row) :
    List (String × List Row) :=
  countyRows.foldl (fun g r => addToGroup g (countyGroupKey m r) r) []

/-- The groupBy key of buildCountyFiles, the template string state^county. -/
def countyKey (r : Row) : String :=
  jsToString r.state ++ "^" ++ jsToString r.county

/-- safeFips of buildCountyFiles: every non-digit character removed. -/
def safeFips (s : String) : String :=
  String.mk (s.toList.filter (fun c => c.isDigit))

/-- The per-state all-history county outputs of buildCountyFiles: for each
group, the file name stem safeFips and the processed rows written to it. -/
def countyAllOutputs (stateRows countyRows : List Row) : List (String × List Row) :=
  (groupedByStateFips (stateNameToFips stateRows) countyRows).map
    (fun p => (safeFips p.1, processData p.2 countyKey none))

/-
Second version of the script: raw record arrays, explicit header validation,
plain string joins for output.  Modelled as a pure run over the three feeds
(each a list of records, the first record being the header row) returning the
ordered list of filesystem events it performs together with the error message
of the header mismatch that aborted it, if any.
-/

inductive FsEvent where
  | fileDel (path : String)
  | dirClear (path : String)
  | fileWrite (path : String) (content : String)
deriving DecidableEq, Repr

def expectedUsHeader : List String := ["date", "cases", "deaths"]

def expectedUsStatesHeader : List String := ["date", "state", "fips", "cases", "deaths"]

def expectedUsCountiesHeader : List String :=
  ["date", "county", "state", "fips", "cases", "deaths"]

/-- Header validation of the second version: the first record of the feed must
equal the expected column list, else the run throws.  An empty feed fires no
record event and validates nothing. -/
def checkHeader (feed : List (List String)) (expected : List String) (feedName : String) :
    Option String :=
  match feed with
  | [] => none
  | h :: _ =>
    if h = expected then none
    else some ("Header for " ++ feedName ++ " did not match")

/-- Array destructuring of a record position: undefined beyond the length,
which both joins to the empty string and parses as an invalid date, so it is
modelled by the empty string. -/
def getCol (r : List String) (i : Nat) : String :=
  (r[i]?).getD ""

/-- The latestDate fold of the second version over raw records (date is the
first column). -/
def latestStepRec (acc : Option JsDate) (r : List String) : Option JsDate :=
  let d := createDate (getCol r 0)
  match acc with
  | none => some d
  | some l => if dateGt d l then some d else some l

def latestOfRecs (rows : List (List String)) : Option JsDate :=
  rows.foldl latestStepRec none

def joinRow (r : List String) : String :=
  String.intercalate "," r

def joinRows (rows : List (List String)) : String :=
  String.intercalate "\n" (rows.map joinRow)

/-- parseStates of the second version: a national record re-packed with state
US and fips 00. -/
def usToStateRec (r : List String) : List String :=
  [getCol r 0, "US", "00", getCol r 1, getCol r 2]

/-- The filesystem events parseStates performs after a successful parse: the
two deletes, then the all-history write, then the trailing-window write whose
filter keeps index 0 (the header) and every row with date at least the
cutoff. -/
def stateStageEvents (usRows stateRows : List (List String)) (cut : JsDate) : List FsEvent :=
  let body := usRows.map usToStateRec ++ stateRows
  let body90 := body.filter (fun r => dateGe (createDate (getCol r 0)) cut)
  [ .fileDel "data/nyt/state/90d.csv",
    .fileDel "data/nyt/state/all.csv",
    .fileWrite "data/nyt/state/all.csv" (joinRows (expectedUsStatesHeader :: body)),
    .fileWrite "data/nyt/state/90d.csv" (joinRows (expectedUsStatesHeader :: body90)) ]

/-- The stateNameToFips fold of the second version (state is column 1, fips
column 2, stored without String conversion but already a string). -/
def stateNameToFipsV2 (stateRows : List (List String)) : List (String × String) :=
  stateRows.foldl (fun m r => updateStateMap m (getCol r 1) (getCol r 2)) []

/-- Appending a raw county record to its group. -/
def addToGroupRec (g : List (String × List (List String))) (k : String) (r : List String) :
    List (String × List (List String)) :=
  match alookup g k with
  | some _ => g.map (fun p => if p.1 = k then (p.1, p.2 ++ [r]) else p)
  | none => g ++ [(k, [r])]

/-- parseCounties grouping of the second version: state is column 2; an
unmapped name groups under the object key "undefined". -/
def countyGroupsV2 (m : List (String × String)) (rows : List (List String)) :
    List (String × List (List String)) :=
  rows.foldl (fun g r =>
    let k := match alookup m (getCol r 2) with
      | some f => f
      | none => "undefined"
    addToGroupRec g k r) []

/-- The filesystem events of the county stage of the second version: the two
directory clears, then per group the all-history and trailing-window writes. -/
def countyStageEvents (m : List (String × String)) (cut : JsDate)
    (countyRows : List (List String)) : List FsEvent :=
  [FsEvent.dirClear "data/nyt/county/90d", FsEvent.dirClear "data/nyt/county/all"] ++
  List.flatten ((countyGroupsV2 m countyRows).map (fun p =>
    let body90 := p.2.filter (fun r => dateGe (createDate (getCol r 0)) cut)
    [ FsEvent.fileWrite ("data/nyt/county/all/" ++ safeFips p.1 ++ ".csv")
        (joinRows (expectedUsCountiesHeader :: p.2)),
      FsEvent.fileWrite ("data/nyt/county/90d/" ++ safeFips p.1 ++ ".csv")
        (joinRows (expectedUsCountiesHeader :: body90)) ]))

/-- The whole run of the second version over the three feeds: each feed header
is validated at its first record, before any of that feed rows are processed
and before any of its stage events; a mismatch ends the run with the events
performed so far and the thrown message. -/
def runV2 (us states counties : List (List String)) : List FsEvent × Option String :=
  match checkHeader us expectedUsHeader "us.csv" with
  | some e => ([], some e)
  | none =>
    let usRows := us.drop 1
    let cut := sub97 (latestOfRecs usRows)
    match checkHeader states expectedUsStatesHeader "us-states.csv" with
    | some e => ([], some e)
    | none =>
      let stateRows := states.drop 1
      let ev1 := stateStageEvents usRows stateRows cut
      match checkHeader counties expectedUsCountiesHeader "us-counties.csv" with
      | some e => (ev1, some e)
      | none =>
        (ev1 ++ countyStageEvents (stateNameToFipsV2 stateRows) cut (counties.drop 1), none)

theorem processGroupFrom_nil (p : Option Row) : processGroupFrom p [] = [] := by
  cases p <;> rfl

theorem toNumber_ne_null (v : JsVal) : toNumber v ≠ JsVal.null := by
  cases v <;> simp [toNumber]
  case str s => cases parseJsNumber s <;> simp

theorem jsSub_left_nan (v : JsVal) : jsSub JsVal.nan v = JsVal.nan := by
  cases v <;> rfl

/-- The pure delta pass agrees, group by group, with the per-group loop of the
source: filtering the output of deltaAux on a key gives exactly the per-group
computation run on the filtered input, continued from the last already-seen
row of that group. -/
theorem deltaAux_filter (key : Row → String) (k : String)
    (hkey : ∀ r p, key (deriveRow r p) = key r) :
    ∀ (rest pre : List Row),
      (deltaAux key pre rest).filter (fun r => key r == k) =
        processGroupFrom ((pre.filter (fun p => key p == k)).getLast?)
          (rest.filter (fun r => key r == k)) := by
  intro rest
  induction rest with
  | nil => intro pre; simp [deltaAux, processGroupFrom_nil]
  | cons r rest ih =>
    intro pre
    simp only [deltaAux, List.filter_cons, hkey]
    by_cases hk : key r = k
    · have hpr : (fun p => key p == key r) = (fun p => key p == k) := by
        funext p; rw [hk]
      simp only [hk, beq_self_eq_true, if_true, hpr]
      rw [ih (pre ++ [r])]
      have hfil : (pre ++ [r]).filter (fun p => key p == k) =
          pre.filter (fun p => key p == k) ++ [r] := by
        rw [List.filter_append]
        simp [hk]
      rw [hfil, List.getLast?_concat]
      cases hlast : (pre.filter (fun p => key p == k)).getLast? with
      | none => simp [processGroupFrom, processGroup, deriveRow]
      | some p => simp [processGroupFrom, processGroupGo, deriveRow]
    · have hne : (key r == k) = false := by
        simp [hk]
      simp only [hne, Bool.false_eq_true, if_false]
      have hfil : (pre ++ [r]).filter (fun p => key p == k) =
          pre.filter (fun p => key p == k) := by
        rw [List.filter_append]
        simp [hne]
      rw [ih (pre ++ [r]), hfil]

/-- Grouped view of the delta pass started with no rows already seen. -/
theorem deltaPass_filter (key : Row → String) (k : String)
    (hkey : ∀ r p, key (deriveRow r p) = key r) (data : List Row) :
    (deltaPass key data).filter (fun r => key r == k) =
      processGroup (data.filter (fun r => key r == k)) := by
  have h := deltaAux_filter key k hkey data []
  simpa [deltaPass, processGroupFrom] using h

theorem processGroup_head (g : List Row) (r0 : Row) (h : g.head? = some r0) :
    (processGroup g).head? =
      some { r0 with newCases := some (toNumber r0.cases),
                     newDeaths := some (toNumber r0.deaths) } := by
  cases g with
  | nil => simp at h
  | cons a l =>
    simp only [List.head?_cons, Option.some.injEq] at h
    subst h
    rfl

theorem processGroupGo_zero (lc ld : JsVal) (l : List Row) (r : Row) (h : l[0]? = some r) :
    (processGroupGo lc ld l)[0]? =
      some { r with newCases := some (jsSub (toNumber r.cases) lc),
                    newDeaths := some (jsSub (toNumber r.deaths) ld) } := by
  cases l with
  | nil => simp at h
  | cons a l =>
    simp only [List.getElem?_cons_zero, Option.some.injEq] at h
    subst h
    simp [processGroupGo]

theorem processGroupGo_adjacent (l : List Row) : ∀ (lc ld : JsVal) (i : Nat) (ri rj : Row),
    l[i]? = some ri → l[i + 1]? = some rj →
    (processGroupGo lc ld l)[i + 1]? =
      some { rj with newCases := some (jsSub (toNumber rj.cases) (toNumber ri.cases)),
                     newDeaths := some (jsSub (toNumber rj.deaths) (toNumber ri.deaths)) } := by
  induction l with
  | nil => intro lc ld i ri rj h; simp at h
  | cons a l ih =>
    intro lc ld i ri rj hi hj
    cases i with
    | zero =>
      simp only [List.getElem?_cons_zero, Option.some.injEq] at hi
      subst hi
      rw [List.getElem?_cons_succ] at hj
      simp only [processGroupGo, List.getElem?_cons_succ]
      exact processGroupGo_zero _ _ l rj hj
    | succ i =>
      rw [List.getElem?_cons_succ] at hi hj
      simp only [processGroupGo, List.getElem?_cons_succ]
      exact ih _ _ i ri rj hi hj

/-- In the per-group loop, a row after the first subtracts exactly the
immediately preceding row of the group. -/
theorem processGroup_adjacent (g : List Row) (i : Nat) (ri rj : Row)
    (hi : g[i]? = some ri) (hj : g[i + 1]? = some rj) :
    (processGroup g)[i + 1]? =
      some { rj with newCases := some (jsSub (toNumber rj.cases) (toNumber ri.cases)),
                     newDeaths := some (jsSub (toNumber rj.deaths) (toNumber ri.deaths)) } := by
  cases g with
  | nil => simp at hi
  | cons r0 rest =>
    cases i with
    | zero =>
      simp only [List.getElem?_cons_zero, Option.some.injEq] at hi
      subst hi
      rw [List.getElem?_cons_succ] at hj
      simp only [processGroup, List.getElem?_cons_succ]
      exact processGroupGo_zero _ _ rest rj hj
    | succ i =>
      rw [List.getElem?_cons_succ] at hi hj
      simp only [processGroup, List.getElem?_cons_succ]
      exact processGroupGo_adjacent rest _ _ i ri rj hi hj

theorem origFields_deriveRow (r : Row) (p : Option Row) :
    origFields (deriveRow r p) = origFields r := by
  cases p <;> rfl

theorem testingFields_deriveRow (r : Row) (p : Option Row) :
    testingFields (deriveRow r p) = testingFields r := by
  cases p <;> rfl

theorem origFields_attachTesting (td : List TRow) (r : Row) :
    origFields (attachTesting td r) = origFields r := by
  cases h : lookupTesting td (jsToString r.fips) (jsToString r.date) <;>
    simp [attachTesting, h, origFields]

theorem deltaAux_map_orig (key : Row → String) :
    ∀ (l pre : List Row), (deltaAux key pre l).map origFields = l.map origFields := by
  intro l
  induction l with
  | nil => intro pre; rfl
  | cons r rest ih =>
    intro pre
    simp only [deltaAux, List.map_cons, origFields_deriveRow, ih (pre ++ [r])]

theorem deltaAux_map_testing (key : Row → String) :
    ∀ (l pre : List Row), (deltaAux key pre l).map testingFields = l.map testingFields := by
  intro l
  induction l with
  | nil => intro pre; rfl
  | cons r rest ih =>
    intro pre
    simp only [deltaAux, List.map_cons, testingFields_deriveRow, ih (pre ++ [r])]

theorem attachPhase_map_orig (td : Option (List TRow)) (data : List Row) :
    (attachPhase td data).map origFields = data.map origFields := by
  cases td with
  | none => rfl
  | some t =>
    simp [attachPhase, List.map_map, Function.comp_def, origFields_attachTesting]

/-- processData leaves the parsed fields of every row, and the row order,
untouched. -/
theorem processData_map_orig (data : List Row) (key : Row → String) (td : Option (List TRow)) :
    (processData data key td).map origFields = data.map origFields := by
  show (deltaAux key [] (attachPhase td data)).map origFields = data.map origFields
  rw [deltaAux_map_orig, attachPhase_map_orig]

theorem deltaAux_all_some (key : Row → String) :
    ∀ (l pre : List Row),
      (deltaAux key pre l).all (fun r => r.newCases.isSome && r.newDeaths.isSome) = true := by
  intro l
  induction l with
  | nil => intro pre; rfl
  | cons r rest ih =>
    intro pre
    simp only [deltaAux, List.all_cons, ih (pre ++ [r]), Bool.and_true]
    cases hp : (pre.filter (fun p => key p == key r)).getLast? <;> rfl

/-- Every row of the delta pass output is its input row with some previous-row
context applied through deriveRow. -/
theorem deltaAux_get_exists (key : Row → String) :
    ∀ (l pre : List Row) (i : Nat) (r : Row), l[i]? = some r →
      ∃ p, (deltaAux key pre l)[i]? = some (deriveRow r p) := by
  intro l
  induction l with
  | nil => intro pre i r h; simp at h
  | cons a l ih =>
    intro pre i r h
    cases i with
    | zero =>
      simp only [List.getElem?_cons_zero, Option.some.injEq] at h
      subst h
      refine ⟨(pre.filter (fun p => key p == key a)).getLast?, ?_⟩
      simp only [deltaAux, List.getElem?_cons_zero]
    | succ i =>
      rw [List.getElem?_cons_succ] at h
      obtain ⟨p, hp⟩ := ih (pre ++ [a]) i r h
      exact ⟨p, by simp only [deltaAux, List.getElem?_cons_succ]; exact hp⟩

/-- C1: for every region group produced by the Delta Calculator processData,
the first record of the group gets newCases equal to its own cumulative cases
and newDeaths equal to its own cumulative deaths (coerced with Number), the
delta from an implicit zero baseline; the derived values are set and are never
null. -/
theorem claim_c1_first_record (data : List Row) (key : Row → String)
    (td : Option (List TRow)) (k : String) (r0 : Row)
    (hkey : ∀ r p, key (deriveRow r p) = key r)
    (h : ((attachPhase td data).filter (fun r => key r == k)).head? = some r0) :
    ((processData data key td).filter (fun r => key r == k)).head? =
      some { r0 with newCases := some (toNumber r0.cases),
                     newDeaths := some (toNumber r0.deaths) } ∧
    toNumber r0.cases ≠ JsVal.null ∧ toNumber r0.deaths ≠ JsVal.null := by
  refine ⟨?_, toNumber_ne_null _, toNumber_ne_null _⟩
  show ((deltaPass key (attachPhase td data)).filter (fun r => key r == k)).head? = _
  rw [deltaPass_filter key k hkey]
  exact processGroup_head _ _ h

def w1Row : Row :=
  { date := .str "2020-03-15", state := .str "US", fips := .str "00",
    cases := .str "5", deaths := .str "2" }

theorem claim_c1_first_record_witness :
    ((processData [w1Row] stateKey none).filter (fun r => stateKey r == "US")).head? =
      some { w1Row with newCases := some (toNumber w1Row.cases),
                        newDeaths := some (toNumber w1Row.deaths) } ∧
    toNumber w1Row.cases ≠ JsVal.null ∧ toNumber w1Row.deaths ≠ JsVal.null :=
  claim_c1_first_record [w1Row] stateKey none "US" w1Row
    (by intro r p; cases p <;> rfl) (by decide)

/-- C2: within a region group of the Delta Calculator (rows assumed already
date-sorted), every record after the first gets newCases equal to its
cumulative cases minus the cumulative cases of the immediately preceding
record of the group (and likewise for deaths), as exact integer arithmetic;
the previous record is positional, with no gap-filling of missing dates. -/
theorem claim_c2_adjacent_diff (data : List Row) (key : Row → String)
    (td : Option (List TRow)) (k : String) (i : Nat) (ri rj : Row) (a b c d : Int)
    (hkey : ∀ r p, key (deriveRow r p) = key r)
    (hi : ((attachPhase td data).filter (fun r => key r == k))[i]? = some ri)
    (hj : ((attachPhase td data).filter (fun r => key r == k))[i + 1]? = some rj)
    (ha : toNumber ri.cases = JsVal.num a) (hb : toNumber rj.cases = JsVal.num b)
    (hc : toNumber ri.deaths = JsVal.num c) (hd : toNumber rj.deaths = JsVal.num d) :
    ((processData data key td).filter (fun r => key r == k))[i + 1]? =
      some { rj with newCases := some (JsVal.num (b - a)),
                     newDeaths := some (JsVal.num (d - c)) } := by
  have h := processGroup_adjacent ((attachPhase td data).filter (fun r => key r == k))
    i ri rj hi hj
  rw [ha, hb, hc, hd] at h
  simp only [jsSub] at h
  show ((deltaPass key (attachPhase td data)).filter (fun r => key r == k))[i + 1]? = _
  rw [deltaPass_filter key k hkey]
  exact h

def w2RowA : Row :=
  { date := .str "2020-01-01", state := .str "US", cases := .str "1", deaths := .str "0" }

def w2RowB : Row :=
  { date := .str "2020-01-02", state := .str "US", cases := .str "3", deaths := .str "1" }

theorem claim_c2_adjacent_diff_witness :
    ((processData [w2RowA, w2RowB] stateKey none).filter (fun r => stateKey r == "US"))[1]? =
      some { w2RowB with newCases := some (JsVal.num (3 - 1)),
                         newDeaths := some (JsVal.num (1 - 0)) } :=
  claim_c2_adjacent_diff [w2RowA, w2RowB] stateKey none "US" 0 w2RowA w2RowB 1 3 0 1
    (by intro r p; cases p <;> rfl) (by decide) (by decide)
    (by decide) (by decide) (by decide) (by decide)

/-- C10: processData preserves the parsed fields (date, state, county, fips,
cases, deaths) of every row, the number of rows and their relative order; it
sets the derived newCases and newDeaths on every row; without testing data the
testing fields of every row are untouched, and when testing data is present a
row with no matching testing record keeps its testing fields unchanged as
well, so testing fields are added only on rows with a matching testing
record. -/
theorem claim_c10_frame (data : List Row) (key : Row → String) (td : Option (List TRow)) :
    (processData data key td).map origFields = data.map origFields ∧
    (processData data key td).length = data.length ∧
    (processData data key td).all (fun r => r.newCases.isSome && r.newDeaths.isSome) = true ∧
    (processData data key none).map testingFields = data.map testingFields ∧
    (∀ (t : List TRow) (r : Row) (i : Nat), td = some t → data[i]? = some r →
      lookupTesting t (jsToString r.fips) (jsToString r.date) = none →
      ((processData data key td)[i]?).map testingFields = some (testingFields r)) := by
  refine ⟨processData_map_orig data key td, ?_, ?_, ?_, ?_⟩
  · have h := congrArg List.length (processData_map_orig data key td)
    simpa using h
  · exact deltaAux_all_some key (attachPhase td data) []
  · show (deltaAux key [] data).map testingFields = data.map testingFields
    exact deltaAux_map_testing key data []
  · intro t r i htd hdata hnomatch
    subst htd
    have h2 : attachTesting t r = r := by
      simp [attachTesting, hnomatch]
    have h1 : (attachPhase (some t) data)[i]? = some r := by
      simp [attachPhase, List.getElem?_map, hdata, h2]
    obtain ⟨p, hp⟩ := deltaAux_get_exists key (attachPhase (some t) data) [] i r h1
    show ((deltaAux key [] (attachPhase (some t) data))[i]?).map testingFields = _
    rw [hp]
    simp [testingFields_deriveRow]

def c4TestRec : TRow :=
  { date := .num 20200315, fips := .str "00", positive := .num 100, negative := .num 50 }

def c4CaseRow : Row :=
  { date := .str "2020-03-15", state := .str "US", fips := .str "00",
    cases := .str "10", deaths := .str "0" }

/-- C4 counterexample: a matching testing record with positive 100 and
negative 50 but no total field yields tests null, not 150; the code never
reconstructs the total from the two components. -/
theorem claim_c4_counterexample :
    (attachTesting [c4TestRec] c4CaseRow).tests = some JsVal.null ∧
    (some JsVal.null : Option JsVal) ≠ some (JsVal.num 150) := by
  exact ⟨by decide, by decide⟩

/-- C4 amended: when a testing record matches, the tests field is the coerced
total field of that record (null when the feed omits it), and positive and
negative are attached separately; when no testing record matches, the row is
left entirely unchanged (testing fields unset rather than explicitly null). -/
theorem claim_c4_amended (td : List TRow) (r : Row) :
    (∀ t, lookupTesting td (jsToString r.fips) (jsToString r.date) = some t →
      (attachTesting td r).tests = some (coerceNumber t.total) ∧
      (attachTesting td r).positive = some (coerceNumber t.positive) ∧
      (attachTesting td r).negative = some (coerceNumber t.negative)) ∧
    (lookupTesting td (jsToString r.fips) (jsToString r.date) = none →
      attachTesting td r = r) := by
  constructor
  · intro t ht
    simp [attachTesting, ht]
  · intro h
    simp [attachTesting, h]

theorem claim_c4_amended_witness :
    (attachTesting [c4TestRec] c4CaseRow).tests = some (coerceNumber c4TestRec.total) ∧
    attachTesting [] c4CaseRow = c4CaseRow :=
  ⟨((claim_c4_amended [c4TestRec] c4CaseRow).1 c4TestRec (by decide)).1,
    (claim_c4_amended [] c4CaseRow).2 (by decide)⟩

def c5TestRec : TRow :=
  { date := .num 20200315, fips := .str "00", positive := .num 80, negative := .num 20,
    total := .num 100, positiveIncrease := .num 4, negativeIncrease := .num 1,
    totalTestResultsIncrease := .num 5 }

def c5CaseRow : Row :=
  { date := .str "2020-03-15", state := .str "US", fips := .str "00",
    cases := .str "10", deaths := .str "0" }

/-- C5 counterexample: on the first (and only) record of a series that has
testing data, newTests is the feed field totalTestResultsIncrease (5), not the
cumulative tests value (100), so the derived testing metrics are not computed
from a zero baseline by the delta rule. -/
theorem claim_c5_counterexample :
    ((processData [c5CaseRow] stateKey (some [c5TestRec]))[0]?).map
      (fun x => (x.newTests, x.tests)) =
      some (some (JsVal.num 5), some (JsVal.num 100)) ∧
    (some (JsVal.num 5) : Option JsVal) ≠ some (JsVal.num 100) := by
  exact ⟨by decide, by decide⟩

/-- C5 amended: for every record matched by a testing record, first of its
group or not, newTests, newPositive and newNegative are copied (numerically
coerced) from the testing feed fields totalTestResultsIncrease,
positiveIncrease and negativeIncrease; the Delta Calculator never recomputes
them from the cumulative testing values. -/
theorem claim_c5_amended (data : List Row) (key : Row → String) (td : List TRow)
    (i : Nat) (r : Row) (t : TRow)
    (hr : data[i]? = some r)
    (ht : lookupTesting td (jsToString r.fips) (jsToString r.date) = some t) :
    ((processData data key (some td))[i]?).map
      (fun x => (x.newTests, x.newPositive, x.newNegative)) =
      some (some (coerceNumber t.totalTestResultsIncrease),
            some (coerceNumber t.positiveIncrease),
            some (coerceNumber t.negativeIncrease)) := by
  have h1 : (attachPhase (some td) data)[i]? = some (attachTesting td r) := by
    simp [attachPhase, List.getElem?_map, hr]
  obtain ⟨p, hp⟩ :=
    deltaAux_get_exists key (attachPhase (some td) data) [] i (attachTesting td r) h1
  show (((deltaAux key [] (attachPhase (some td) data))[i]?).map
    (fun x => (x.newTests, x.newPositive, x.newNegative))) = _
  rw [hp]
  cases p <;> simp [deriveRow, attachTesting, ht]

theorem claim_c5_amended_witness :
    ((processData [c5CaseRow] stateKey (some [c5TestRec]))[0]?).map
      (fun x => (x.newTests, x.newPositive, x.newNegative)) =
      some (some (coerceNumber c5TestRec.totalTestResultsIncrease),
            some (coerceNumber c5TestRec.positiveIncrease),
            some (coerceNumber c5TestRec.negativeIncrease)) :=
  claim_c5_amended [c5CaseRow] stateKey [c5TestRec] 0 c5CaseRow c5TestRec
    (by decide) (by decide)

def c6RowA : Row :=
  { date := .str "2020-01-01", state := .str "US", cases := .str "1", deaths := .str "0" }

def c6RowB : Row :=
  { date := .str "2020-01-02", state := .str "US", cases := .str "abc", deaths := .str "1" }

/-- C6 counterexample: a non-numeric cumulative value (cases abc) yields a
derived newCases of NaN, not the null the claim requires. -/
theorem claim_c6_counterexample :
    ((processData [c6RowA, c6RowB] stateKey none)[1]?).map (fun r => r.newCases) =
      some (some JsVal.nan) ∧
    (some (some JsVal.nan) : Option (Option JsVal)) ≠ some (some JsVal.null) := by
  exact ⟨by decide, by decide⟩

/-- C6 amended: cumulative inputs are coerced with Number before subtraction,
and a record whose cumulative cases (or deaths) does not coerce to a number
gets newCases (or newDeaths) NaN, since undefined and non-numeric strings
coerce to NaN and NaN propagates through the subtraction; no exception is
raised (the computation is total), but the derived value is NaN rather than
null. -/
theorem claim_c6_amended (g : List Row) (i : Nat) (ri : Row)
    (h : g[i]? = some ri) :
    (toNumber ri.cases = JsVal.nan →
      ((processGroup g)[i]?).map (fun r => r.newCases) = some (some JsVal.nan)) ∧
    (toNumber ri.deaths = JsVal.nan →
      ((processGroup g)[i]?).map (fun r => r.newDeaths) = some (some JsVal.nan)) := by
  cases i with
  | zero =>
    cases g with
    | nil => simp at h
    | cons a l =>
      simp only [List.getElem?_cons_zero, Option.some.injEq] at h
      subst h
      constructor
      · intro hnan
        simp [processGroup, hnan]
      · intro hnan
        simp [processGroup, hnan]
  | succ i =>
    have hlt : i + 1 < g.length := (List.getElem?_eq_some_iff.mp h).1
    have hlt2 : i < g.length := Nat.lt_of_succ_lt hlt
    obtain ⟨rp, hip⟩ : ∃ rp, g[i]? = some rp := ⟨g[i], List.getElem?_eq_getElem hlt2⟩
    have hadj := processGroup_adjacent g i rp ri hip h
    constructor
    · intro hnan
      rw [hnan] at hadj
      rw [hadj]
      simp [jsSub_left_nan]
    · intro hnan
      rw [hnan] at hadj
      rw [hadj]
      simp [jsSub_left_nan]

def c6RowC : Row :=
  { date := .str "2020-01-02", state := .str "US", cases := .str "7" }

theorem claim_c6_amended_witness :
    ((processGroup [c6RowA, c6RowB])[1]?).map (fun r => r.newCases) =
      some (some JsVal.nan) ∧
    ((processGroup [c6RowA, c6RowC])[1]?).map (fun r => r.newDeaths) =
      some (some JsVal.nan) :=
  ⟨(claim_c6_amended [c6RowA, c6RowB] 1 c6RowB (by decide)).1 (by decide),
    (claim_c6_amended [c6RowA, c6RowC] 1 c6RowC (by decide)).2 (by decide)⟩

theorem latest_fold (l : List Row) : ∀ (t0 : Int),
    (∀ r ∈ l, createDate (jsToString r.date) ≠ JsDate.invalid) →
    ∃ T, l.foldl latestStep (some (JsDate.time t0)) = some (JsDate.time T) ∧
      (T = t0 ∨ ∃ r ∈ l, createDate (jsToString r.date) = JsDate.time T) ∧
      t0 ≤ T ∧
      (∀ r ∈ l, ∀ t, createDate (jsToString r.date) = JsDate.time t → t ≤ T) := by
  induction l with
  | nil =>
    intro t0 _
    exact ⟨t0, rfl, Or.inl rfl, le_refl t0, by simp⟩
  | cons r l ih =>
    intro t0 hval
    obtain ⟨s, hd⟩ : ∃ s, createDate (jsToString r.date) = JsDate.time s := by
      cases hcd : createDate (jsToString r.date) with
      | invalid => exact absurd hcd (hval r (List.mem_cons_self r l))
      | time s => exact ⟨s, rfl⟩
    have hstep : latestStep (some (JsDate.time t0)) r = some (JsDate.time (max t0 s)) := by
      simp only [latestStep, hd, dateGt]
      by_cases hts : t0 < s
      · simp [hts, max_eq_right (le_of_lt hts)]
      · simp [hts, max_eq_left (le_of_not_lt hts)]
    obtain ⟨T, hfold, hor, hle, hub⟩ := ih (max t0 s) (fun r2 h2 => hval r2 (List.mem_cons_of_mem r h2))
    refine ⟨T, ?_, ?_, ?_, ?_⟩
    · rw [List.foldl_cons, hstep]
      exact hfold
    · rcases hor with hT | ⟨r2, h2, hr2⟩
      · rcases max_choice t0 s with hmax | hmax
        · exact Or.inl (hT.trans hmax)
        · exact Or.inr ⟨r, List.mem_cons_self r l, by rw [hd, hT, hmax]⟩
      · exact Or.inr ⟨r2, List.mem_cons_of_mem r h2, hr2⟩
    · exact le_trans (le_max_left t0 s) hle
    · intro r2 h2 t ht
      rcases List.mem_cons.mp h2 with h2 | h2
      · subst h2
        rw [hd] at ht
        injection ht with ht
        rw [← ht]
        exact le_trans (le_max_right t0 s) hle
      · exact hub r2 h2 t ht

/-- The latestDate fold of parseNytUs computes the maximum date of the
national feed when every date of the feed is valid. -/
theorem latestDateOf_spec (us : List Row) (hne : us ≠ [])
    (hval : ∀ r ∈ us, createDate (jsToString r.date) ≠ JsDate.invalid) :
    ∃ T, latestDateOf us = some (JsDate.time T) ∧
      (∃ r ∈ us, createDate (jsToString r.date) = JsDate.time T) ∧
      (∀ r ∈ us, ∀ t, createDate (jsToString r.date) = JsDate.time t → t ≤ T) := by
  cases us with
  | nil => exact absurd rfl hne
  | cons r l =>
    obtain ⟨s, hd⟩ : ∃ s, createDate (jsToString r.date) = JsDate.time s := by
      cases hcd : createDate (jsToString r.date) with
      | invalid => exact absurd hcd (hval r (List.mem_cons_self r l))
      | time s => exact ⟨s, rfl⟩
    have hfirst : latestStep none r = some (JsDate.time s) := by
      simp [latestStep, hd]
    obtain ⟨T, hfold, hor, hle, hub⟩ := latest_fold l s
      (fun r2 h2 => hval r2 (List.mem_cons_of_mem r h2))
    refine ⟨T, ?_, ?_, ?_⟩
    · show (r :: l).foldl latestStep none = some (JsDate.time T)
      rw [List.foldl_cons, hfirst]
      exact hfold
    · rcases hor with hT | ⟨r2, h2, hr2⟩
      · exact ⟨r, List.mem_cons_self r l, by rw [hd, hT]⟩
      · exact ⟨r2, List.mem_cons_of_mem r h2, hr2⟩
    · intro r2 h2 t ht
      rcases List.mem_cons.mp h2 with h2 | h2
      · subst h2
        rw [hd] at ht
        injection ht with ht
        subst ht
        exact hle
      · exact hub r2 h2 t ht

/-- C3: when every date of the national feed is valid, the latestDate fold
yields the maximum date T of the national feed, the trailing-window state
output is exactly the all-history output filtered to dates at least T minus
97 days, and every trailing row is a row of the all-history output. -/
theorem claim_c3_window (usRows stateRows : List Row) (ct : List TRow)
    (hne : usRows ≠ [])
    (hval : ∀ r ∈ usRows, createDate (jsToString r.date) ≠ JsDate.invalid) :
    ∃ T : Int,
      latestDateOf usRows = some (JsDate.time T) ∧
      (∃ r ∈ usRows, createDate (jsToString r.date) = JsDate.time T) ∧
      (∀ r ∈ usRows, ∀ t, createDate (jsToString r.date) = JsDate.time t → t ≤ T) ∧
      state90Rows usRows stateRows ct =
        (stateAllRows usRows stateRows ct).filter
          (fun r => dateGe (createDate (jsToString r.date)) (JsDate.time (T - 97))) ∧
      ∀ row ∈ state90Rows usRows stateRows ct, row ∈ stateAllRows usRows stateRows ct := by
  obtain ⟨T, hT, hatt, hub⟩ := latestDateOf_spec usRows hne hval
  refine ⟨T, hT, hatt, hub, ?_, ?_⟩
  · have hcut : date90DaysAgo usRows = JsDate.time (T - 97) := by
      simp [date90DaysAgo, hT, sub97]
    show (stateAllRows usRows stateRows ct).filter
        (fun r => dateGe (createDate (jsToString r.date)) (date90DaysAgo usRows)) = _
    rw [hcut]
  · intro row hrow
    exact List.mem_of_mem_filter hrow

def w3Row : Row :=
  { date := .str "2020-03-15", state := .str "US", fips := .str "00",
    cases := .str "1", deaths := .str "0" }

theorem claim_c3_window_witness :
    ∃ T : Int,
      latestDateOf [w3Row] = some (JsDate.time T) ∧
      (∃ r ∈ [w3Row], createDate (jsToString r.date) = JsDate.time T) ∧
      (∀ r ∈ [w3Row], ∀ t, createDate (jsToString r.date) = JsDate.time t → t ≤ T) ∧
      state90Rows [w3Row] [] [] =
        (stateAllRows [w3Row] [] []).filter
          (fun r => dateGe (createDate (jsToString r.date)) (JsDate.time (T - 97))) ∧
      ∀ row ∈ state90Rows [w3Row] [] [], row ∈ stateAllRows [w3Row] [] [] :=
  claim_c3_window [w3Row] [] [] (by simp)
    (by intro r hr; rw [List.mem_singleton] at hr; subst hr; decide)

theorem alookup_cons {β : Type} (a : String) (b : β) (rest : List (String × β)) (k : String) :
    alookup ((a, b) :: rest) k = if a = k then some b else alookup rest k := rfl

theorem alookup_append_gen {β : Type} (m l2 : List (String × β)) (k : String) :
    alookup (m ++ l2) k =
      match alookup m k with
      | some v => some v
      | none => alookup l2 k := by
  induction m with
  | nil => rfl
  | cons p m ih =>
    obtain ⟨a, b⟩ := p
    rw [List.cons_append, alookup_cons, alookup_cons]
    by_cases h : a = k
    · rw [if_pos h, if_pos h]
    · rw [if_neg h, if_neg h]
      exact ih

theorem alookup_mem {β : Type} (g : List (String × β)) (k : String) (v : β)
    (h : alookup g k = some v) : (k, v) ∈ g := by
  induction g with
  | nil => simp [alookup] at h
  | cons p g ih =>
    obtain ⟨a, b⟩ := p
    rw [alookup_cons] at h
    by_cases hk : a = k
    · rw [if_pos hk] at h
      injection h with h
      subst hk
      subst h
      exact List.mem_cons_self _ _
    · rw [if_neg hk] at h
      exact List.mem_cons_of_mem _ (ih h)

theorem alookup_replace_found (m : List (String × String)) (name code v : String)
    (h : alookup m name = some v) :
    alookup (m.map (fun p => if p.1 = name then (name, code) else p)) name = some code := by
  induction m with
  | nil => simp [alookup] at h
  | cons p m ih =>
    obtain ⟨a, b⟩ := p
    rw [alookup_cons] at h
    rw [List.map_cons]
    by_cases hk : a = name
    · rw [if_pos (show ((a, b) : String × String).1 = name from hk), alookup_cons,
        if_pos rfl]
    · rw [if_neg (show ¬((a, b) : String × String).1 = name from hk), alookup_cons,
        if_neg hk]
      rw [if_neg hk] at h
      exact ih h

theorem alookup_replace_ne (m : List (String × String)) (name code k : String)
    (h : name ≠ k) :
    alookup (m.map (fun p => if p.1 = name then (name, code) else p)) k = alookup m k := by
  induction m with
  | nil => rfl
  | cons p m ih =>
    obtain ⟨a, b⟩ := p
    rw [List.map_cons, alookup_cons]
    by_cases hk : a = name
    · rw [if_pos (show ((a, b) : String × String).1 = name from hk), alookup_cons,
        if_neg h, if_neg (show ¬a = k from hk ▸ h), ih]
    · rw [if_neg (show ¬((a, b) : String × String).1 = name from hk), alookup_cons]
      by_cases hak : a = k
      · rw [if_pos hak, if_pos hak]
      · rw [if_neg hak, if_neg hak]
        exact ih

theorem alookup_update_self (m : List (String × String)) (name code : String) :
    alookup (updateStateMap m name code) name =
      match alookup m name with
      | none => some code
      | some v => if v = "" then some code else some v := by
  cases h : alookup m name with
  | none =>
    simp only [updateStateMap, h]
    rw [alookup_append_gen, h, alookup_cons, if_pos rfl]
  | some v =>
    simp only [updateStateMap, h]
    by_cases hv : v = ""
    · rw [if_pos hv, if_pos hv]
      exact alookup_replace_found m name code v h
    · rw [if_neg hv, if_neg hv, h]

theorem alookup_update_ne (m : List (String × String)) (name code k : String)
    (hk : name ≠ k) :
    alookup (updateStateMap m name code) k = alookup m k := by
  cases h : alookup m name with
  | none =>
    simp only [updateStateMap, h]
    rw [alookup_append_gen]
    cases h2 : alookup m k with
    | none => rw [alookup_cons, if_neg hk]; rfl
    | some w => rfl
  | some v =>
    simp only [updateStateMap, h]
    by_cases hv : v = ""
    · rw [if_pos hv]
      exact alookup_replace_ne m name code k hk
    · rw [if_neg hv]

/-- One step of the evolution of a stored code under a candidate code: an
absent or empty stored code is replaced by the candidate, a non-empty one is
kept (the falsy guard of the source). -/
def gStep (cur : Option String) (c : String) : Option String :=
  match cur with
  | none => some c
  | some v => if v = "" then some c else some v

/-- The stored code after a sequence of candidate codes. -/
def gAux (cur : Option String) (cs : List String) : Option String :=
  cs.foldl gStep cur

/-- The codes String(fips) of the rows carrying a given state name, in feed
order. -/
def codesFor (rows : List Row) (name : String) : List String :=
  (rows.filter (fun r => jsToString r.state == name)).map (fun r => jsToString r.fips)

/-- Modelled from the amended claim wording: the code kept for a name is the
first non-empty code among its rows, the empty string when the name has rows
but only empty codes, and absent when the name has no rows. -/
def firstTruthyCode (cs : List String) : Option String :=
  match cs with
  | [] => none
  | _ => some ((cs.filter (fun s => !(s = "" : Bool))).headD "")

theorem stateMap_fold (name : String) : ∀ (rows : List Row) (m : List (String × String)),
    alookup (rows.foldl
      (fun m r => updateStateMap m (jsToString r.state) (jsToString r.fips)) m) name =
      gAux (alookup m name) (codesFor rows name) := by
  intro rows
  induction rows with
  | nil => intro m; rfl
  | cons r rows ih =>
    intro m
    rw [List.foldl_cons, ih]
    by_cases hs : jsToString r.state = name
    · have hcodes : codesFor (r :: rows) name = jsToString r.fips :: codesFor rows name := by
        simp [codesFor, List.filter_cons, hs]
      rw [hcodes, hs]
      have hrhs : gAux (alookup m name) (jsToString r.fips :: codesFor rows name) =
          gAux (gStep (alookup m name) (jsToString r.fips)) (codesFor rows name) := rfl
      rw [hrhs]
      have hupd : alookup (updateStateMap m name (jsToString r.fips)) name =
          gStep (alookup m name) (jsToString r.fips) :=
        alookup_update_self m name (jsToString r.fips)
      rw [hupd]
    · have hcodes : codesFor (r :: rows) name = codesFor rows name := by
        simp [codesFor, List.filter_cons, hs]
      rw [hcodes, alookup_update_ne m (jsToString r.state) (jsToString r.fips) name hs]

theorem gAux_some_ne (v : String) (hv : v ≠ "") : ∀ cs, gAux (some v) cs = some v := by
  intro cs
  induction cs with
  | nil => rfl
  | cons c cs ih =>
    rw [gAux, List.foldl_cons, show gStep (some v) c = some v by simp [gStep, hv]]
    exact ih

theorem gAux_some_empty : ∀ cs, gAux (some "") cs =
    some ((cs.filter (fun s => !(s = "" : Bool))).headD "") := by
  intro cs
  induction cs with
  | nil => rfl
  | cons c cs ih =>
    rw [gAux, List.foldl_cons, show gStep (some "") c = some c by simp [gStep]]
    by_cases hc : c = ""
    · subst hc
      rw [show (List.foldl gStep (some "") cs : Option String) = gAux (some "") cs from rfl, ih]
      simp [List.filter_cons]
    · rw [show (List.foldl gStep (some c) cs : Option String) = gAux (some c) cs from rfl,
        gAux_some_ne c hc cs]
      simp [List.filter_cons, hc]

theorem gAux_none (cs : List String) : gAux none cs = firstTruthyCode cs := by
  cases cs with
  | nil => rfl
  | cons c cs =>
    rw [gAux, List.foldl_cons, show gStep none c = some c from rfl]
    by_cases hc : c = ""
    · subst hc
      rw [show (List.foldl gStep (some "") cs : Option String) = gAux (some "") cs from rfl,
        gAux_some_empty cs]
      simp [firstTruthyCode, List.filter_cons]
    · rw [show (List.foldl gStep (some c) cs : Option String) = gAux (some c) cs from rfl,
        gAux_some_ne c hc cs]
      simp [firstTruthyCode, List.filter_cons, hc]

/-- C8 amended: the Region Index maps each state name to the first non-empty
String(fips) among its rows (JS falsiness lets a stored empty-string code be
overwritten by a later row), to the empty string when all its codes are empty,
and to nothing when the name never occurs; in particular a non-empty
first-seen code is never overwritten. -/
theorem claim_c8_amended (rows : List Row) (name : String) :
    alookup (stateNameToFips rows) name = firstTruthyCode (codesFor rows name) := by
  have h := stateMap_fold name rows []
  rw [show stateNameToFips rows =
    rows.foldl (fun m r => updateStateMap m (jsToString r.state) (jsToString r.fips)) []
    from rfl, h]
  exact gAux_none (codesFor rows name)

def c8RowA : Row := { state := .str "X", fips := .str "" }

def c8RowB : Row := { state := .str "X", fips := .str "06" }

/-- C8 counterexample: the first row seen for name X carries the code empty
string, yet after a second row with code 06 the map stores 06, so the code of
the first row seen is overwritten, contradicting the claim. -/
theorem claim_c8_counterexample :
    alookup (stateNameToFips [c8RowA, c8RowB]) "X" = some "06" ∧
    jsToString c8RowA.fips = "" ∧ ("06" : String) ≠ "" := by
  exact ⟨by decide, by decide, by decide⟩

theorem alookup_append_val_found (g : List (String × List Row)) (k : String) (r : Row)
    (v : List Row) (h : alookup g k = some v) :
    alookup (g.map (fun p => if p.1 = k then (p.1, p.2 ++ [r]) else p)) k = some (v ++ [r]) := by
  induction g with
  | nil => simp [alookup] at h
  | cons p g ih =>
    obtain ⟨a, b⟩ := p
    rw [alookup_cons] at h
    rw [List.map_cons]
    by_cases hk : a = k
    · rw [if_pos hk] at h
      injection h with h
      subst h
      rw [if_pos (show ((a, b) : String × List Row).1 = k from hk), alookup_cons, if_pos hk]
    · rw [if_neg hk] at h
      rw [if_neg (show ¬((a, b) : String × List Row).1 = k from hk), alookup_cons, if_neg hk]
      exact ih h

theorem alookup_append_val_ne (g : List (String × List Row)) (k k2 : String) (r : Row)
    (h : k ≠ k2) :
    alookup (g.map (fun p => if p.1 = k then (p.1, p.2 ++ [r]) else p)) k2 = alookup g k2 := by
  induction g with
  | nil => rfl
  | cons p g ih =>
    obtain ⟨a, b⟩ := p
    rw [List.map_cons, alookup_cons]
    by_cases hk : a = k
    · have hak2 : ¬a = k2 := fun hh => h (hk.symm.trans hh)
      rw [if_pos (show ((a, b) : String × List Row).1 = k from hk), alookup_cons,
        if_neg hak2, if_neg hak2]
      exact ih
    · rw [if_neg (show ¬((a, b) : String × List Row).1 = k from hk), alookup_cons]
      by_cases hak : a = k2
      · rw [if_pos hak, if_pos hak]
      · rw [if_neg hak, if_neg hak]
        exact ih

theorem alookup_addToGroup_self (g : List (String × List Row)) (k : String) (r : Row) :
    alookup (addToGroup g k r) k = some ((alookup g k).getD [] ++ [r]) := by
  cases h : alookup g k with
  | none =>
    simp only [addToGroup, h]
    rw [alookup_append_gen, h, alookup_cons, if_pos rfl]
    rfl
  | some v =>
    simp only [addToGroup, h]
    rw [alookup_append_val_found g k r v h]
    rfl

theorem alookup_addToGroup_ne (g : List (String × List Row)) (k k2 : String) (r : Row)
    (h : k ≠ k2) :
    alookup (addToGroup g k r) k2 = alookup g k2 := by
  cases hl : alookup g k with
  | none =>
    simp only [addToGroup, hl]
    rw [alookup_append_gen]
    cases h2 : alookup g k2 with
    | none => rw [alookup_cons, if_neg h]; rfl
    | some w => rfl
  | some v =>
    simp only [addToGroup, hl]
    exact alookup_append_val_ne g k k2 r h

/-- A row of the county feed ends up inside the group of its key, whatever the
accumulator already holds; rows already inside the accumulated group stay. -/
theorem grouped_fold_mem (m : List (String × String)) (k : String) (r : Row) :
    ∀ (rows : List Row) (acc : List (String × List Row)),
      ((r ∈ rows ∧ countyGroupKey m r = k) ∨ (∃ g0, alookup acc k = some g0 ∧ r ∈ g0)) →
      ∃ g, alookup (rows.foldl (fun g2 r2 => addToGroup g2 (countyGroupKey m r2) r2) acc) k
          = some g ∧ r ∈ g := by
  intro rows
  induction rows with
  | nil =>
    intro acc h
    rcases h with ⟨hmem, _⟩ | ⟨g0, hg, hr⟩
    · simp at hmem
    · exact ⟨g0, hg, hr⟩
  | cons a rows ih =>
    intro acc h
    rw [List.foldl_cons]
    rcases h with ⟨hmem, hk⟩ | ⟨g0, hg, hr⟩
    · rcases List.mem_cons.mp hmem with heq | hmem2
      · subst heq
        apply ih
        right
        refine ⟨(alookup acc k).getD [] ++ [r], ?_, ?_⟩
        · rw [hk]
          exact alookup_addToGroup_self acc k r
        · exact List.mem_append_right _ (by simp)
      · exact ih (addToGroup acc (countyGroupKey m a) a) (Or.inl ⟨hmem2, hk⟩)
    · by_cases hka : countyGroupKey m a = k
      · apply ih
        right
        refine ⟨(alookup acc k).getD [] ++ [a], ?_, ?_⟩
        · rw [hka]
          exact alookup_addToGroup_self acc k a
        · rw [hg]
          exact List.mem_append_left _ hr
      · apply ih
        right
        exact ⟨g0, by rw [alookup_addToGroup_ne acc (countyGroupKey m a) k a hka]; exact hg, hr⟩

/-- C7 amended: a county row whose state name is absent from the Region Index
is not excluded: JS property access with an undefined key groups it under the
literal key "undefined", and buildCountyFiles then writes its group to the
output file whose region-code stem is the empty string (every non-digit of
"undefined" being stripped); the processed row, original fields intact, is in
that file and the run does not abort (the whole pipeline is total). -/
theorem claim_c7_amended (stateRows countyRows : List Row) (r : Row)
    (hmem : r ∈ countyRows)
    (hmiss : alookup (stateNameToFips stateRows) (jsToString r.state) = none) :
    ∃ outRows, ("", outRows) ∈ countyAllOutputs stateRows countyRows ∧
      origFields r ∈ outRows.map origFields := by
  have hk : countyGroupKey (stateNameToFips stateRows) r = "undefined" := by
    simp [countyGroupKey, hmiss]
  obtain ⟨g, hg, hrg⟩ := grouped_fold_mem (stateNameToFips stateRows) "undefined" r
    countyRows [] (Or.inl ⟨hmem, hk⟩)
  have hmem2 : ("undefined", g) ∈ groupedByStateFips (stateNameToFips stateRows) countyRows :=
    alookup_mem _ _ _ hg
  refine ⟨processData g countyKey none, ?_, ?_⟩
  · have hin : (safeFips "undefined", processData g countyKey none) ∈
        countyAllOutputs stateRows countyRows :=
      List.mem_map_of_mem _ hmem2
    rw [show safeFips "undefined" = "" by decide] at hin
    exact hin
  · rw [processData_map_orig]
    exact List.mem_map_of_mem origFields hrg

def c7StateRow : Row :=
  { date := .str "2020-03-15", state := .str "California", fips := .str "06",
    cases := .str "1", deaths := .str "0" }

def c7CountyA : Row :=
  { date := .str "2020-03-15", county := .str "Alameda", state := .str "California",
    fips := .str "06001", cases := .str "1", deaths := .str "0" }

def c7CountyB : Row :=
  { date := .str "2020-03-15", county := .str "Agana", state := .str "Guam",
    fips := .str "66010", cases := .str "2", deaths := .str "0" }

/-- C7 counterexample: with California the only indexed state, the Guam county
row (state name absent from the Region Index) is not excluded from every
output file: it is written, alone, to the all-history county file whose name
stem is the empty string. -/
theorem claim_c7_counterexample :
    (countyAllOutputs [c7StateRow] [c7CountyA, c7CountyB]).map
      (fun p => (p.1, p.2.map (fun r => r.state))) =
      [("06", [JsVal.str "California"]), ("", [JsVal.str "Guam"])] ∧
    alookup (stateNameToFips [c7StateRow]) (jsToString c7CountyB.state) = none := by
  exact ⟨by decide, by decide⟩

theorem claim_c7_amended_witness :
    ∃ outRows, ("", outRows) ∈ countyAllOutputs [c7StateRow] [c7CountyA, c7CountyB] ∧
      origFields c7CountyB ∈ outRows.map origFields :=
  claim_c7_amended [c7StateRow] [c7CountyA, c7CountyB] c7CountyB (by decide) (by decide)

def c9GoodUs : List (List String) :=
  [["date", "cases", "deaths"], ["2020-03-15", "1", "0"]]

def c9GoodStates : List (List String) :=
  [["date", "state", "fips", "cases", "deaths"], ["2020-03-15", "California", "06", "1", "0"]]

def c9BadCounties : List (List String) :=
  [["date", "state", "fips"]]

def c9BadUs : List (List String) :=
  [["date", "state", "fips"]]

/-- C9 counterexample: a header mismatch on the county feed does abort the
run, but only after the state stage has already deleted and rewritten the two
state output files, so the run does not abort before any output file is
written or modified. -/
theorem claim_c9_counterexample :
    (runV2 c9GoodUs c9GoodStates c9BadCounties).2 =
      some "Header for us-counties.csv did not match" ∧
    (runV2 c9GoodUs c9GoodStates c9BadCounties).1 ≠ [] := by
  exact ⟨by decide, by decide⟩

/-- C9 amended: each feed header is validated at its first record, before any
computation on that feed rows and before any of its stage filesystem events; a
mismatch on the national or the state feed aborts the run with no filesystem
event at all, while a mismatch on the county feed aborts after the state stage
events (two deletes and two writes) have already happened, and before any
county-directory event. -/
theorem claim_c9_amended (us states counties : List (List String))
    (hu hs hc : List String)
    (h1 : us.head? = some hu) (h2 : states.head? = some hs) (h3 : counties.head? = some hc) :
    (hu ≠ expectedUsHeader →
      runV2 us states counties = ([], some "Header for us.csv did not match")) ∧
    (hu = expectedUsHeader → hs ≠ expectedUsStatesHeader →
      runV2 us states counties = ([], some "Header for us-states.csv did not match")) ∧
    (hu = expectedUsHeader → hs = expectedUsStatesHeader → hc ≠ expectedUsCountiesHeader →
      (runV2 us states counties).2 = some "Header for us-counties.csv did not match" ∧
      (runV2 us states counties).1 =
        stateStageEvents (us.drop 1) (states.drop 1) (sub97 (latestOfRecs (us.drop 1)))) := by
  cases us with
  | nil => simp at h1
  | cons u0 usT =>
  cases states with
  | nil => simp at h2
  | cons s0 stT =>
  cases counties with
  | nil => simp at h3
  | cons c0 coT =>
  simp only [List.head?_cons, Option.some.injEq] at h1 h2 h3
  subst h1
  subst h2
  subst h3
  refine ⟨?_, ?_, ?_⟩
  · intro hne
    simp only [runV2, checkHeader, if_neg hne]
    rfl
  · intro he hne
    simp only [runV2, checkHeader, if_pos he, if_neg hne]
    rfl
  · intro he1 he2 hne
    simp only [runV2, checkHeader, if_pos he1, if_pos he2, if_neg hne]
    exact ⟨rfl, trivial⟩

theorem claim_c9_amended_witness :
    runV2 c9BadUs c9GoodStates c9BadCounties =
      ([], some "Header for us.csv did not match") :=
  (claim_c9_amended c9BadUs c9GoodStates c9BadCounties
    ["date", "state", "fips"] ["date", "state", "fips", "cases", "deaths"]
    ["date", "state", "fips"] rfl rfl rfl).1 (by decide)

def c10UnmatchedRow : Row :=
  { date := .str "2020-03-16", state := .str "US", fips := .str "00",
    cases := .str "12", deaths := .str "1" }

theorem claim_c10_frame_witness :
    ((processData [c5CaseRow, c10UnmatchedRow] stateKey (some [c5TestRec]))[1]?).map
      testingFields = some (testingFields c10UnmatchedRow) :=
  (claim_c10_frame [c5CaseRow, c10UnmatchedRow] stateKey (some [c5TestRec])).2.2.2.2
    [c5TestRec] c10UnmatchedRow 1 rfl (by decide) (by decide)
